import Mathlib

/-!
Verification of the hole-mask geometry core (src/src/MaskLayer.tsx): length
parsing, shape-specific size normalization, anchor-relative boundary
derivation, and circular hit-testing.  Numeric JS values are modelled as
exact rationals (parseFloat of a `\d+(\.\d+)?` literal is its decimal
denotation); the hit-test, which uses Math.sqrt, is modelled over the reals.
Thrown JS errors are modelled with `Except` over the spec's error taxonomy.
-/

/-- Decidable equality for `Except`, so concrete runs of the embedded
operations can be checked by `decide`. -/
instance {ε α : Type} [DecidableEq ε] [DecidableEq α] : DecidableEq (Except ε α) := fun x y =>
  match x, y with
  | .ok a, .ok b =>
    if h : a = b then isTrue (by rw [h])
    else isFalse (fun hc => h (Except.ok.inj hc))
  | .error a, .error b =>
    if h : a = b then isTrue (by rw [h])
    else isFalse (fun hc => h (Except.error.inj hc))
  | .ok _, .error _ => isFalse (fun hc => Except.noConfusion hc)
  | .error _, .ok _ => isFalse (fun hc => Except.noConfusion hc)

namespace MaskLayer

/-- Unit tag of a CSS length: the source's `type Unit = 'px' | '%'`. -/
inductive Unit
  | px
  | percent
  deriving DecidableEq, Repr

/-- Error taxonomy (spec §7).  The source throws `Error` with a distinct
message at each site: the length-regex mismatch sites are `MalformedLength`,
the rectangle token-count site is `InvalidSizeArity`. -/
inductive Err
  | MalformedLength
  | InvalidSizeArity
  deriving DecidableEq, Repr

/-- Result of `parseValue`: the `{value, unit}` record of the source. -/
structure ParsedValue where
  value : ℚ
  unit : Unit
  deriving DecidableEq, Repr

/-- Numeric value of a digit string (the integer part read in base 10). -/
def digitsToNat (cs : List Char) : Nat :=
  cs.foldl (fun n c => 10 * n + (c.toNat - Char.toNat '0')) 0

/-- The regex `^(\d+(?:\.\d+)?)(px|%)$` used by both `parseValue` and
`parseRectangleDimensions`: a greedy run of digits, an optional dot followed
by a run of digits, and a unit suffix ending the string; on a match, the
captured number as read by `parseFloat`. -/
def matchLength (cs : List Char) : Option ParsedValue :=
  if (cs.takeWhile Char.isDigit).isEmpty then none
  else
    match cs.dropWhile Char.isDigit with
    | ['p', 'x'] => some ⟨(digitsToNat (cs.takeWhile Char.isDigit) : ℚ), .px⟩
    | ['%'] => some ⟨(digitsToNat (cs.takeWhile Char.isDigit) : ℚ), .percent⟩
    | '.' :: t =>
      if (t.takeWhile Char.isDigit).isEmpty then none
      else
        match t.dropWhile Char.isDigit with
        | ['p', 'x'] =>
          some ⟨(digitsToNat (cs.takeWhile Char.isDigit) : ℚ) +
            (digitsToNat (t.takeWhile Char.isDigit) : ℚ) / 10 ^ (t.takeWhile Char.isDigit).length, .px⟩
        | ['%'] =>
          some ⟨(digitsToNat (cs.takeWhile Char.isDigit) : ℚ) +
            (digitsToNat (t.takeWhile Char.isDigit) : ℚ) / 10 ^ (t.takeWhile Char.isDigit).length, .percent⟩
        | _ => none
    | _ => none

/-- `parseValue` (MaskLayer.tsx lines 35-44): match the length regex or throw
"Invalid position value" (`MalformedLength`). -/
def parseValue (s : String) : Except Err ParsedValue :=
  match matchLength s.data with
  | some r => .ok r
  | none => .error .MalformedLength

/-- Accumulator for JS `String.split(' ')`. -/
def splitOnSpaceAux : List Char → List Char → List (List Char)
  | [], acc => [acc.reverse]
  | c :: cs, acc =>
    if c = ' ' then acc.reverse :: splitOnSpaceAux cs []
    else splitOnSpaceAux cs (c :: acc)

/-- JS `String.split(' ')`: split at every single space, keeping empty pieces
(so the result is never empty). -/
def splitOnSpace (cs : List Char) : List (List Char) :=
  splitOnSpaceAux cs []

/-- `parseRectangleDimensions` (lines 47-64): split on spaces, require exactly
two parts (`InvalidSizeArity` otherwise), and match each part against the
length regex (`MalformedLength` on mismatch). -/
def parseRectangleDimensions (value : String) : Except Err (ParsedValue × ParsedValue) :=
  match splitOnSpace value.data with
  | [p1, p2] =>
    match matchLength p1, matchLength p2 with
    | some w, some h => .ok (w, h)
    | _, _ => .error .MalformedLength
  | _ => .error .InvalidSizeArity

inductive Shape
  | SHAPE_RECTANGLE
  | SHAPE_SQUARE
  | SHAPE_CIRCLE
  deriving DecidableEq, Repr

inductive Anchor
  | ANCHOR_MIDDLE
  | ANCHOR_TOP_LEFT
  | ANCHOR_TOP_RIGHT
  | ANCHOR_BOTTOM_LEFT
  | ANCHOR_BOTTOM_RIGHT
  deriving DecidableEq, Repr

/-- The `Position` descriptor of the source (x, y, size, anchor, shape). -/
structure Position where
  x : String
  y : String
  size : String
  anchor : Anchor
  shape : Shape
  deriving DecidableEq, Repr

/-- `getShapeSize` (lines 67-85): rectangles duplicate a single value to
"size size"; squares and circles keep only the first space-separated value. -/
def getShapeSize (size : String) (shape : Shape) : String :=
  match shape with
  | .SHAPE_RECTANGLE =>
    if size.data.contains ' ' then size
    else String.mk (size.data ++ ' ' :: size.data)
  | _ =>
    if size.data.contains ' ' then String.mk ((splitOnSpace size.data).headD [])
    else size

/-- Operand interpolated into a `calc()` template by the source: either a raw
input string (`holePosition.x/y/size`) or a parsed length rendered back as
`"<value><unit>"`. -/
inductive Delta
  | raw (s : String)
  | len (v : ℚ) (u : Unit)
  deriving DecidableEq, Repr

/-- A CSS coordinate expression as the source builds it: a bare input string,
or the template `calc(<ref> + <delta>)` / `calc(<ref> - <delta>)`. -/
inductive CExpr
  | lit (s : String)
  | add (ref : String) (d : Delta)
  | sub (ref : String) (d : Delta)
  deriving DecidableEq, Repr

/-- The four hole edges returned by `getHoleBoundaries`. -/
structure Bounds where
  left : CExpr
  top : CExpr
  right : CExpr
  bottom : CExpr
  deriving DecidableEq, Repr

/-- `getHoleBoundaries` (lines 139-233).  Rectangles parse their dimensions
first and build edges from the parsed width/height; squares and circles parse
the normalized single size first (so a malformed size throws even for corner
anchors), but their four corner-anchor branches interpolate the raw
`holePosition.size` text into the edge expressions, while the Middle branch
uses the parsed half-size. -/
def getHoleBoundaries (p : Position) : Except Err Bounds :=
  match p.shape with
  | .SHAPE_RECTANGLE =>
    match parseRectangleDimensions (getShapeSize p.size .SHAPE_RECTANGLE) with
    | .error e => .error e
    | .ok dims =>
      .ok (match p.anchor with
        | .ANCHOR_TOP_LEFT =>
          ⟨.lit p.x, .lit p.y,
           .add p.x (.len dims.1.value dims.1.unit),
           .add p.y (.len dims.2.value dims.2.unit)⟩
        | .ANCHOR_TOP_RIGHT =>
          ⟨.sub p.x (.len dims.1.value dims.1.unit), .lit p.y,
           .lit p.x,
           .add p.y (.len dims.2.value dims.2.unit)⟩
        | .ANCHOR_BOTTOM_LEFT =>
          ⟨.lit p.x, .sub p.y (.len dims.2.value dims.2.unit),
           .add p.x (.len dims.1.value dims.1.unit),
           .lit p.y⟩
        | .ANCHOR_BOTTOM_RIGHT =>
          ⟨.sub p.x (.len dims.1.value dims.1.unit),
           .sub p.y (.len dims.2.value dims.2.unit),
           .lit p.x, .lit p.y⟩
        | .ANCHOR_MIDDLE =>
          ⟨.sub p.x (.len (dims.1.value / 2) dims.1.unit),
           .sub p.y (.len (dims.2.value / 2) dims.2.unit),
           .add p.x (.len (dims.1.value / 2) dims.1.unit),
           .add p.y (.len (dims.2.value / 2) dims.2.unit)⟩)
  | _ =>
    match parseValue (getShapeSize p.size p.shape) with
    | .error e => .error e
    | .ok sizeParsed =>
      .ok (match p.anchor with
        | .ANCHOR_TOP_LEFT =>
          ⟨.lit p.x, .lit p.y, .add p.x (.raw p.size), .add p.y (.raw p.size)⟩
        | .ANCHOR_TOP_RIGHT =>
          ⟨.sub p.x (.raw p.size), .lit p.y, .lit p.x, .add p.y (.raw p.size)⟩
        | .ANCHOR_BOTTOM_LEFT =>
          ⟨.lit p.x, .sub p.y (.raw p.size), .add p.x (.raw p.size), .lit p.y⟩
        | .ANCHOR_BOTTOM_RIGHT =>
          ⟨.sub p.x (.raw p.size), .sub p.y (.raw p.size), .lit p.x, .lit p.y⟩
        | .ANCHOR_MIDDLE =>
          ⟨.sub p.x (.len (sizeParsed.value / 2) sizeParsed.unit),
           .sub p.y (.len (sizeParsed.value / 2) sizeParsed.unit),
           .add p.x (.len (sizeParsed.value / 2) sizeParsed.unit),
           .add p.y (.len (sizeParsed.value / 2) sizeParsed.unit)⟩)

/-- `calculateCircleCenter` (lines 88-117): corner anchors shift the reference
point by one radius along each axis (`+` for left/top, `-` for right/bottom);
Middle (the default arm) leaves the reference strings untouched. -/
def calculateCircleCenter (x y : String) (radius : ℚ) (unit : Unit) (anchor : Anchor) :
    CExpr × CExpr :=
  match anchor with
  | .ANCHOR_TOP_LEFT => (.add x (.len radius unit), .add y (.len radius unit))
  | .ANCHOR_TOP_RIGHT => (.sub x (.len radius unit), .add y (.len radius unit))
  | .ANCHOR_BOTTOM_LEFT => (.add x (.len radius unit), .sub y (.len radius unit))
  | .ANCHOR_BOTTOM_RIGHT => (.sub x (.len radius unit), .sub y (.len radius unit))
  | .ANCHOR_MIDDLE => (.lit x, .lit y)

/-- `positionToPixels` (lines 135-137): percentages scale by the container
size over 100, absolute values pass through. -/
def positionToPixels (value : ℚ) (unit : Unit) (containerSize : ℚ) : ℚ :=
  match unit with
  | .percent => containerSize * value / 100
  | .px => value

/-- `isClickInsideCircle` (lines 120-132):
`Math.sqrt((clickX-centerX)^2 + (clickY-centerY)^2) <= radius`, with JS
numbers modelled as reals. -/
def isClickInsideCircle (clickX clickY centerX centerY radius : ℝ) : Prop :=
  Real.sqrt ((clickX - centerX) ^ 2 + (clickY - centerY) ^ 2) ≤ radius

/-- `parseValue` applied to a coordinate expression string, as
`handleCircleClick` does at lines 282-283.  A bare input string parses as
usual; an interpolated `calc(...)` string begins with the character `c`,
which the digit-initial length regex rejects, so the source's `parseValue`
throws for every non-literal expression. -/
def parseValueExpr (e : CExpr) : Except Err ParsedValue :=
  match e with
  | .lit s => parseValue s
  | .add _ _ => .error .MalformedLength
  | .sub _ _ => .error .MalformedLength

/-- Pixel-resolution part of `handleCircleClick` (lines 270-288): normalize
the size, halve it to a radius, compute the per-anchor center, parse the
center strings back with `parseValue`, and convert center x against the
container width, center y against the height, and the radius against
`Math.min(width, height)`. -/
def circleHitGeometry (p : Position) (width height : ℚ) : Except Err (ℚ × ℚ × ℚ) :=
  match parseValue (getShapeSize p.size .SHAPE_CIRCLE) with
  | .error e => .error e
  | .ok sizeParsed =>
    match parseValueExpr
      (calculateCircleCenter p.x p.y (sizeParsed.value / 2) sizeParsed.unit p.anchor).1 with
    | .error e => .error e
    | .ok cxv =>
      match parseValueExpr
        (calculateCircleCenter p.x p.y (sizeParsed.value / 2) sizeParsed.unit p.anchor).2 with
      | .error e => .error e
      | .ok cyv =>
        .ok (positionToPixels cxv.value cxv.unit width,
             positionToPixels cyv.value cyv.unit height,
             positionToPixels (sizeParsed.value / 2) sizeParsed.unit (min width height))

/-- The circle render path (lines 312-322): radius is half the normalized
extent, with the extent's unit, and the center comes from
`calculateCircleCenter`. -/
def circleBoundary (p : Position) : Except Err (ℚ × Unit × CExpr × CExpr) :=
  match parseValue (getShapeSize p.size .SHAPE_CIRCLE) with
  | .error e => .error e
  | .ok sizeParsed =>
    .ok (sizeParsed.value / 2, sizeParsed.unit,
      (calculateCircleCenter p.x p.y (sizeParsed.value / 2) sizeParsed.unit p.anchor).1,
      (calculateCircleCenter p.x p.y (sizeParsed.value / 2) sizeParsed.unit p.anchor).2)

/-- Modelled from the spec: §4.4 extends the pixel resolver to the delta
operand of a coordinate expression (the repository delegates resolution of
box-edge `calc()` expressions to the CSS engine, which is not under src/).
A raw operand is parsed with the length grammar and converted; a rendered
length is converted directly. -/
def resolveDelta (d : Delta) (axis : ℚ) : Except Err ℚ :=
  match d with
  | .raw s =>
    match parseValue s with
    | .ok v => .ok (positionToPixels v.value v.unit axis)
    | .error e => .error e
  | .len v u => .ok (positionToPixels v u axis)

/-- Modelled from the spec: §4.4 Pixel Resolver on coordinate expressions —
resolve the reference and the delta independently against the given container
axis and combine per the recorded operator. -/
def resolveExpr (e : CExpr) (axis : ℚ) : Except Err ℚ :=
  match e with
  | .lit s =>
    match parseValue s with
    | .ok v => .ok (positionToPixels v.value v.unit axis)
    | .error er => .error er
  | .add r d =>
    match parseValue r, resolveDelta d axis with
    | .ok rv, .ok dv => .ok (positionToPixels rv.value rv.unit axis + dv)
    | .error er, _ => .error er
    | _, .error er => .error er
  | .sub r d =>
    match parseValue r, resolveDelta d axis with
    | .ok rv, .ok dv => .ok (positionToPixels rv.value rv.unit axis - dv)
    | .error er, _ => .error er
    | _, .error er => .error er

/-- Difference of two resolved edges (second minus first) against one axis. -/
def resolvedDiff (a b : CExpr) (axis : ℚ) : Except Err ℚ :=
  match resolveExpr a axis, resolveExpr b axis with
  | .ok va, .ok vb => .ok (vb - va)
  | .error e, _ => .error e
  | _, .error e => .error e

/-- Midpoint of two resolved edges against one axis. -/
def resolvedMid (a b : CExpr) (axis : ℚ) : Except Err ℚ :=
  match resolveExpr a axis, resolveExpr b axis with
  | .ok va, .ok vb => .ok ((va + vb) / 2)
  | .error e, _ => .error e
  | _, .error e => .error e

/-- NormalizedSize (spec §3, §4.2) assembled from the source's normalizer and
token parsers: rectangles yield (width, height); squares and circles
duplicate the single normalized extent. -/
def normalizedWH (p : Position) : Except Err (ParsedValue × ParsedValue) :=
  match p.shape with
  | .SHAPE_RECTANGLE => parseRectangleDimensions (getShapeSize p.size .SHAPE_RECTANGLE)
  | _ =>
    match parseValue (getShapeSize p.size p.shape) with
    | .ok e => .ok (e, e)
    | .error er => .error er

/-- Characters of a unit suffix. -/
def unitChars : Unit → List Char
  | .px => ['p', 'x']
  | .percent => ['%']

/-- `Denotes s v u`: the string s matches the spec grammar
`^\d+(\.\d+)?(px|%)$` (case-sensitive unit suffix) and is written with
magnitude v and unit u. -/
def Denotes (s : String) (v : ℚ) (u : Unit) : Prop :=
  (∃ ip, ip ≠ [] ∧ ip.all Char.isDigit ∧ s.data = ip ++ unitChars u ∧
    v = (digitsToNat ip : ℚ)) ∨
  (∃ ip fp, ip ≠ [] ∧ fp ≠ [] ∧ ip.all Char.isDigit ∧ fp.all Char.isDigit ∧
    s.data = ip ++ '.' :: (fp ++ unitChars u) ∧
    v = (digitsToNat ip : ℚ) + (digitsToNat fp : ℚ) / 10 ^ fp.length)

/-- List-level form of `Denotes`. -/
def DenotesL (cs : List Char) (v : ℚ) (u : Unit) : Prop :=
  (∃ ip, ip ≠ [] ∧ ip.all Char.isDigit ∧ cs = ip ++ unitChars u ∧
    v = (digitsToNat ip : ℚ)) ∨
  (∃ ip fp, ip ≠ [] ∧ fp ≠ [] ∧ ip.all Char.isDigit ∧ fp.all Char.isDigit ∧
    cs = ip ++ '.' :: (fp ++ unitChars u) ∧
    v = (digitsToNat ip : ℚ) + (digitsToNat fp : ℚ) / 10 ^ fp.length)

/-! ### List helper lemmas -/

lemma takeWhile_append_all {p : Char → Bool} {l : List Char} (r : List Char)
    (hl : ∀ c ∈ l, p c = true) :
    (l ++ r).takeWhile p = l ++ r.takeWhile p := by
  induction l with
  | nil => simp
  | cons c cs ih =>
    rw [List.cons_append, List.takeWhile_cons_of_pos (hl c (List.mem_cons_self c cs)),
      List.cons_append, ih (fun d hd => hl d (List.mem_cons_of_mem c hd))]

lemma dropWhile_append_all {p : Char → Bool} {l : List Char} (r : List Char)
    (hl : ∀ c ∈ l, p c = true) :
    (l ++ r).dropWhile p = r.dropWhile p := by
  induction l with
  | nil => simp
  | cons c cs ih =>
    rw [List.cons_append, List.dropWhile_cons_of_pos (hl c (List.mem_cons_self c cs)),
      ih (fun d hd => hl d (List.mem_cons_of_mem c hd))]

lemma all_takeWhile (p : Char → Bool) (l : List Char) :
    ∀ c ∈ l.takeWhile p, p c = true := by
  intro c hc
  exact List.mem_takeWhile_imp hc

/-- The unit suffixes start with a non-digit character. -/
lemma unitChars_takeWhile (u : Unit) : (unitChars u).takeWhile Char.isDigit = [] := by
  cases u <;> decide

lemma unitChars_dropWhile (u : Unit) : (unitChars u).dropWhile Char.isDigit = unitChars u := by
  cases u <;> decide

/-! ### Characterization of the length parser (claim C3) -/

lemma matchLength_sound {cs : List Char} {v : ℚ} {u : Unit}
    (h : matchLength cs = some ⟨v, u⟩) : DenotesL cs v u := by
  have hsplit : cs = cs.takeWhile Char.isDigit ++ cs.dropWhile Char.isDigit :=
    (List.takeWhile_append_dropWhile Char.isDigit cs).symm
  have hall : (cs.takeWhile Char.isDigit).all Char.isDigit :=
    List.all_eq_true.mpr (all_takeWhile Char.isDigit cs)
  unfold matchLength at h
  split at h
  · exact absurd h (by simp)
  rename_i h0
  have hne : cs.takeWhile Char.isDigit ≠ [] := by
    intro hc
    exact h0 (by rw [hc]; rfl)
  split at h
  · -- dropWhile = ['p','x']
    rename_i heq
    simp only [Option.some.injEq, ParsedValue.mk.injEq] at h
    obtain ⟨hv, hu⟩ := h
    subst hu
    subst hv
    refine Or.inl ⟨cs.takeWhile Char.isDigit, hne, hall, ?_, rfl⟩
    show cs = cs.takeWhile Char.isDigit ++ ['p', 'x']
    rw [← heq]
    exact hsplit
  · -- dropWhile = ['%']
    rename_i heq
    simp only [Option.some.injEq, ParsedValue.mk.injEq] at h
    obtain ⟨hv, hu⟩ := h
    subst hu
    subst hv
    refine Or.inl ⟨cs.takeWhile Char.isDigit, hne, hall, ?_, rfl⟩
    show cs = cs.takeWhile Char.isDigit ++ ['%']
    rw [← heq]
    exact hsplit
  · -- dropWhile = '.' :: t
    rename_i t heq
    have htall : (t.takeWhile Char.isDigit).all Char.isDigit :=
      List.all_eq_true.mpr (all_takeWhile Char.isDigit t)
    split at h
    · exact absurd h (by simp)
    rename_i h1
    have htne : t.takeWhile Char.isDigit ≠ [] := by
      intro hc
      exact h1 (by rw [hc]; rfl)
    split at h
    · rename_i hut
      simp only [Option.some.injEq, ParsedValue.mk.injEq] at h
      obtain ⟨hv, hu⟩ := h
      subst hu
      subst hv
      refine Or.inr ⟨cs.takeWhile Char.isDigit, t.takeWhile Char.isDigit,
        hne, htne, hall, htall, ?_, rfl⟩
      show cs = cs.takeWhile Char.isDigit ++ '.' :: (t.takeWhile Char.isDigit ++ ['p', 'x'])
      have ht : t.takeWhile Char.isDigit ++ ['p', 'x'] = t := by
        rw [← hut]
        exact List.takeWhile_append_dropWhile Char.isDigit t
      rw [ht, ← heq]
      exact hsplit
    · rename_i hut
      simp only [Option.some.injEq, ParsedValue.mk.injEq] at h
      obtain ⟨hv, hu⟩ := h
      subst hu
      subst hv
      refine Or.inr ⟨cs.takeWhile Char.isDigit, t.takeWhile Char.isDigit,
        hne, htne, hall, htall, ?_, rfl⟩
      show cs = cs.takeWhile Char.isDigit ++ '.' :: (t.takeWhile Char.isDigit ++ ['%'])
      have ht : t.takeWhile Char.isDigit ++ ['%'] = t := by
        rw [← hut]
        exact List.takeWhile_append_dropWhile Char.isDigit t
      rw [ht, ← heq]
      exact hsplit
    · exact absurd h (by simp)
  · exact absurd h (by simp)

lemma matchLength_complete {cs : List Char} {v : ℚ} {u : Unit}
    (h : DenotesL cs v u) : matchLength cs = some ⟨v, u⟩ := by
  rcases h with ⟨ip, hne, hall, hcs, hv⟩ | ⟨ip, fp, hne, hfne, hall, hfall, hcs, hv⟩
  · have hip : ∀ c ∈ ip, Char.isDigit c = true := fun c hc => List.all_eq_true.mp hall c hc
    have htake : cs.takeWhile Char.isDigit = ip := by
      rw [hcs, takeWhile_append_all _ hip, unitChars_takeWhile, List.append_nil]
    have hdrop : cs.dropWhile Char.isDigit = unitChars u := by
      rw [hcs, dropWhile_append_all _ hip, unitChars_dropWhile]
    have hipe : ip.isEmpty = false := by
      cases ip with
      | nil => exact absurd rfl hne
      | cons a t => rfl
    unfold matchLength
    rw [htake, hdrop, if_neg (by rw [hipe]; exact Bool.false_ne_true)]
    cases u <;> simp [unitChars, hv]
  · have hip : ∀ c ∈ ip, Char.isDigit c = true := fun c hc => List.all_eq_true.mp hall c hc
    have hfp : ∀ c ∈ fp, Char.isDigit c = true := fun c hc => List.all_eq_true.mp hfall c hc
    have hdot : Char.isDigit '.' = false := by decide
    have htake : cs.takeWhile Char.isDigit = ip := by
      rw [hcs, takeWhile_append_all _ hip, List.takeWhile_cons, hdot]
      simp
    have hdrop : cs.dropWhile Char.isDigit = '.' :: (fp ++ unitChars u) := by
      rw [hcs, dropWhile_append_all _ hip, List.dropWhile_cons, hdot]
      simp
    have hftake : (fp ++ unitChars u).takeWhile Char.isDigit = fp := by
      rw [takeWhile_append_all _ hfp, unitChars_takeWhile, List.append_nil]
    have hfdrop : (fp ++ unitChars u).dropWhile Char.isDigit = unitChars u := by
      rw [dropWhile_append_all _ hfp, unitChars_dropWhile]
    have hipe : ip.isEmpty = false := by
      cases ip with
      | nil => exact absurd rfl hne
      | cons a t => rfl
    have hfpe : fp.isEmpty = false := by
      cases fp with
      | nil => exact absurd rfl hfne
      | cons a t => rfl
    unfold matchLength
    rw [htake, hdrop, if_neg (by rw [hipe]; exact Bool.false_ne_true)]
    simp only [hftake, hfdrop]
    rw [if_neg (by rw [hfpe]; exact Bool.false_ne_true)]
    cases u <;> simp [unitChars, hv, hftake]

/-- C3.  Parser totality and round-trip: `parseValue` succeeds exactly on
strings matching `^\d+(\.\d+)?(px|%)$` (case-sensitive unit suffix), on
success it returns exactly the written magnitude and unit, and its only
failure mode is `MalformedLength`. -/
theorem parseValue_round_trip (s : String) :
    (∀ v u, parseValue s = .ok ⟨v, u⟩ ↔ Denotes s v u) ∧
    ((∃ v u, Denotes s v u) ↔ ∃ r, parseValue s = .ok r) ∧
    ((∃ r, parseValue s = .ok r) ∨ parseValue s = .error .MalformedLength) := by
  have key : ∀ v u, parseValue s = .ok ⟨v, u⟩ ↔ Denotes s v u := by
    intro v u
    constructor
    · intro h
      have : matchLength s.data = some ⟨v, u⟩ := by
        unfold parseValue at h
        cases hm : matchLength s.data with
        | none => rw [hm] at h; exact absurd h (by simp)
        | some r => rw [hm] at h; cases h; rfl
      exact matchLength_sound this
    · intro h
      unfold parseValue
      rw [matchLength_complete h]
  refine ⟨key, ?_, ?_⟩
  · constructor
    · rintro ⟨v, u, h⟩
      exact ⟨⟨v, u⟩, (key v u).mpr h⟩
    · rintro ⟨⟨v, u⟩, h⟩
      exact ⟨v, u, (key v u).mp h⟩
  · unfold parseValue
    cases hm : matchLength s.data with
    | none => exact Or.inr rfl
    | some r => exact Or.inl ⟨r, rfl⟩

/-- Witness for C3 at the concrete string "12.5px". -/
theorem parseValue_round_trip_witness : Denotes ("12.5px") (25 / 2) .px :=
  ((parseValue_round_trip ("12.5px")).1 (25 / 2) .px).mp (by
    simp +decide [parseValue, matchLength, List.takeWhile, List.dropWhile, digitsToNat]
    norm_num)

/-! ### Tokenization lemmas (claims C4 and C5) -/

lemma not_mem_of_contains_false {cs : List Char} (h : cs.contains ' ' = false) : ' ' ∉ cs := by
  intro hm
  have he := List.elem_iff.mpr hm
  rw [show List.elem ' ' cs = cs.contains ' ' from rfl, h] at he
  exact Bool.false_ne_true he

lemma mem_of_contains_true {cs : List Char} (h : cs.contains ' ' = true) : ' ' ∈ cs :=
  List.elem_iff.mp (by rw [show List.elem ' ' cs = cs.contains ' ' from rfl, h])

lemma splitOnSpaceAux_no_space {cs : List Char} (acc : List Char) (h : ' ' ∉ cs) :
    splitOnSpaceAux cs acc = [acc.reverse ++ cs] := by
  induction cs generalizing acc with
  | nil => simp [splitOnSpaceAux]
  | cons c cs ih =>
    have hc : ¬ c = ' ' := fun hc => h (hc ▸ List.mem_cons_self c cs)
    rw [splitOnSpaceAux, if_neg hc, ih (c :: acc) (fun hm => h (List.mem_cons_of_mem c hm))]
    simp

lemma splitOnSpaceAux_sep {l : List Char} (r acc : List Char) (h : ' ' ∉ l) :
    splitOnSpaceAux (l ++ ' ' :: r) acc = (acc.reverse ++ l) :: splitOnSpace r := by
  induction l generalizing acc with
  | nil => simp [splitOnSpaceAux, splitOnSpace]
  | cons c cs ih =>
    have hc : ¬ c = ' ' := fun hc => h (hc ▸ List.mem_cons_self c cs)
    rw [List.cons_append, splitOnSpaceAux, if_neg hc,
      ih (c :: acc) (fun hm => h (List.mem_cons_of_mem c hm))]
    simp

lemma splitOnSpace_no_space {cs : List Char} (h : cs.contains ' ' = false) :
    splitOnSpace cs = [cs] := by
  rw [splitOnSpace, splitOnSpaceAux_no_space [] (not_mem_of_contains_false h)]
  rfl

lemma splitOnSpace_dup {cs : List Char} (h : cs.contains ' ' = false) :
    splitOnSpace (cs ++ ' ' :: cs) = [cs, cs] := by
  rw [splitOnSpace, splitOnSpaceAux_sep cs [] (not_mem_of_contains_false h),
    splitOnSpace_no_space h]
  rfl

lemma splitOnSpaceAux_length_pos (cs acc : List Char) :
    1 ≤ (splitOnSpaceAux cs acc).length := by
  induction cs generalizing acc with
  | nil => simp [splitOnSpaceAux]
  | cons c cs ih =>
    rw [splitOnSpaceAux]
    by_cases hc : c = ' '
    · rw [if_pos hc]
      simp
    · rw [if_neg hc]
      exact ih (c :: acc)

lemma splitOnSpace_two_le {cs : List Char} (h : cs.contains ' ' = true) :
    2 ≤ (splitOnSpace cs).length := by
  have hm := mem_of_contains_true h
  clear h
  rw [splitOnSpace]
  generalize ([] : List Char) = acc
  revert hm
  induction cs generalizing acc with
  | nil =>
    intro hm
    exact absurd hm (List.not_mem_nil ' ')
  | cons c cs ih =>
    intro hm
    rw [splitOnSpaceAux]
    by_cases hc : c = ' '
    · rw [if_pos hc]
      have := splitOnSpaceAux_length_pos cs []
      simp only [List.length_cons]
      omega
    · rw [if_neg hc]
      have hmem : ' ' ∈ cs := by
        rcases List.mem_cons.mp hm with h1 | h1
        · exact absurd h1.symm hc
        · exact h1
      exact ih (c :: acc) hmem

/-- C4.  Rectangle size normalization: one token duplicates into equal width
and height, two tokens parse as (width, height) in order, and any other token
count fails with `InvalidSizeArity` (token parse failures propagate as
`MalformedLength`). -/
theorem rectangle_size_arity (s : String) :
    parseRectangleDimensions (getShapeSize s .SHAPE_RECTANGLE) =
      match splitOnSpace s.data with
      | [t] =>
        (match matchLength t with
         | some v => .ok (v, v)
         | none => .error .MalformedLength)
      | [t1, t2] =>
        (match matchLength t1, matchLength t2 with
         | some w, some h => .ok (w, h)
         | _, _ => .error .MalformedLength)
      | _ => .error .InvalidSizeArity := by
  by_cases hc : s.data.contains ' ' = true
  · have hg : getShapeSize s .SHAPE_RECTANGLE = s := by
      show (if s.data.contains ' ' = true then s else String.mk (s.data ++ ' ' :: s.data)) = s
      rw [if_pos hc]
    rw [hg]
    have hlen := splitOnSpace_two_le hc
    unfold parseRectangleDimensions
    rcases hsp : splitOnSpace s.data with _ | ⟨t1, l2⟩
    · rfl
    rcases l2 with _ | ⟨t2, l3⟩
    · rw [hsp] at hlen
      simp at hlen
    rcases l3 with _ | ⟨t3, l4⟩
    · rfl
    · rfl
  · have hc' : s.data.contains ' ' = false := by
      cases h2 : s.data.contains ' '
      · rfl
      · exact absurd h2 hc
    have hg : getShapeSize s .SHAPE_RECTANGLE = String.mk (s.data ++ ' ' :: s.data) := by
      show (if s.data.contains ' ' = true then s else String.mk (s.data ++ ' ' :: s.data)) =
        String.mk (s.data ++ ' ' :: s.data)
      rw [if_neg hc]
    rw [hg]
    have hsp1 : splitOnSpace s.data = [s.data] := splitOnSpace_no_space hc'
    have hsp2 : splitOnSpace (s.data ++ ' ' :: s.data) = [s.data, s.data] :=
      splitOnSpace_dup hc'
    unfold parseRectangleDimensions
    rw [show (String.mk (s.data ++ ' ' :: s.data)).data = s.data ++ ' ' :: s.data from rfl,
      hsp2, hsp1]
    cases hm : matchLength s.data
    · show (match matchLength s.data, matchLength s.data with
          | some w, some h => Except.ok (w, h)
          | _, _ => Except.error Err.MalformedLength) =
        (match matchLength s.data with
          | some v => Except.ok (v, v)
          | none => Except.error Err.MalformedLength)
      rw [hm]
    · show (match matchLength s.data, matchLength s.data with
          | some w, some h => Except.ok (w, h)
          | _, _ => Except.error Err.MalformedLength) =
        (match matchLength s.data with
          | some v => Except.ok (v, v)
          | none => Except.error Err.MalformedLength)
      rw [hm]

/-- C5.  Square/circle size normalization keeps exactly the first
space-separated token, silently ignoring the rest (the normalizer is a total
function, so no error is raised), and leaves a single-token size unchanged. -/
theorem square_circle_first_token (s : String) :
    getShapeSize s .SHAPE_SQUARE = String.mk ((splitOnSpace s.data).headD []) ∧
    getShapeSize s .SHAPE_CIRCLE = String.mk ((splitOnSpace s.data).headD []) ∧
    (s.data.contains ' ' = false →
      getShapeSize s .SHAPE_SQUARE = s ∧ getShapeSize s .SHAPE_CIRCLE = s) := by
  by_cases hc : s.data.contains ' ' = true
  · have h1 : getShapeSize s .SHAPE_SQUARE = String.mk ((splitOnSpace s.data).headD []) := by
      show (if s.data.contains ' ' = true then String.mk ((splitOnSpace s.data).headD [])
        else s) = String.mk ((splitOnSpace s.data).headD [])
      rw [if_pos hc]
    have h2 : getShapeSize s .SHAPE_CIRCLE = String.mk ((splitOnSpace s.data).headD []) := by
      show (if s.data.contains ' ' = true then String.mk ((splitOnSpace s.data).headD [])
        else s) = String.mk ((splitOnSpace s.data).headD [])
      rw [if_pos hc]
    refine ⟨h1, h2, ?_⟩
    intro hfalse
    rw [hfalse] at hc
    exact absurd hc Bool.false_ne_true
  · have hc' : s.data.contains ' ' = false := by
      cases h2 : s.data.contains ' '
      · rfl
      · exact absurd h2 hc
    have hsp1 : splitOnSpace s.data = [s.data] := splitOnSpace_no_space hc'
    have h1 : getShapeSize s .SHAPE_SQUARE = s := by
      show (if s.data.contains ' ' = true then String.mk ((splitOnSpace s.data).headD [])
        else s) = s
      rw [if_neg hc]
    have h2 : getShapeSize s .SHAPE_CIRCLE = s := by
      show (if s.data.contains ' ' = true then String.mk ((splitOnSpace s.data).headD [])
        else s) = s
      rw [if_neg hc]
    refine ⟨?_, ?_, fun _ => ⟨h1, h2⟩⟩
    · rw [h1, hsp1]
      rfl
    · rw [h2, hsp1]
      rfl

/-- Witness for C5 at the single-token size "200px". -/
theorem square_circle_first_token_witness :
    getShapeSize ("200px") .SHAPE_SQUARE = ("200px") ∧
    getShapeSize ("200px") .SHAPE_CIRCLE = ("200px") :=
  (square_circle_first_token ("200px")).2.2 (by decide)

/-! ### Boundary resolution (claims C2 and C8) -/

lemma getShapeSize_single_no_space (shape : Shape) {s : String}
    (hs : shape ≠ .SHAPE_RECTANGLE) (h : s.data.contains ' ' = false) :
    getShapeSize s shape = s := by
  cases shape with
  | SHAPE_RECTANGLE => exact absurd rfl hs
  | SHAPE_SQUARE =>
    show (if s.data.contains ' ' = true then String.mk ((splitOnSpace s.data).headD [])
      else s) = s
    rw [if_neg (by rw [h]; exact Bool.false_ne_true)]
  | SHAPE_CIRCLE =>
    show (if s.data.contains ' ' = true then String.mk ((splitOnSpace s.data).headD [])
      else s) = s
    rw [if_neg (by rw [h]; exact Bool.false_ne_true)]

lemma positionToPixels_half_add (v : ℚ) (u : Unit) (c : ℚ) :
    positionToPixels (v / 2) u c + positionToPixels (v / 2) u c = positionToPixels v u c := by
  cases u
  · show v / 2 + v / 2 = v
    ring
  · show c * (v / 2) / 100 + c * (v / 2) / 100 = c * v / 100
    ring

/-- C2 counterexample.  For shape Square with the two-token size
"200px 400px" and anchor TopLeft, the normalized width is 200px, yet the
right edge interpolates the raw size text, so it does not resolve to pixels
at all: right − left cannot equal the normalized width. -/
theorem anchor_symmetry_counterexample :
    getShapeSize ("200px 400px") .SHAPE_SQUARE = ("200px") ∧
    normalizedWH ⟨("0px"), ("0px"), ("200px 400px"), .ANCHOR_TOP_LEFT, .SHAPE_SQUARE⟩ =
      .ok (⟨200, .px⟩, ⟨200, .px⟩) ∧
    getHoleBoundaries ⟨("0px"), ("0px"), ("200px 400px"), .ANCHOR_TOP_LEFT, .SHAPE_SQUARE⟩ =
      .ok ⟨.lit ("0px"), .lit ("0px"), .add ("0px") (.raw ("200px 400px")),
        .add ("0px") (.raw ("200px 400px"))⟩ ∧
    resolveExpr (.lit ("0px")) 100 = .ok 0 ∧
    resolveExpr (.add ("0px") (.raw ("200px 400px"))) 100 = .error .MalformedLength := by
  refine ⟨?_, ?_, ?_, ?_, ?_⟩
  · simp +decide [getShapeSize, splitOnSpace, splitOnSpaceAux]
  · simp +decide [normalizedWH, getShapeSize, splitOnSpace, splitOnSpaceAux, parseValue,
      matchLength, List.takeWhile, List.dropWhile, digitsToNat]
  · simp +decide [getHoleBoundaries, getShapeSize, splitOnSpace, splitOnSpaceAux, parseValue,
      matchLength, List.takeWhile, List.dropWhile, digitsToNat]
  · simp +decide [resolveExpr, parseValue, matchLength, List.takeWhile, List.dropWhile,
      digitsToNat, positionToPixels]
  · simp +decide [resolveExpr, resolveDelta, parseValue, matchLength, List.takeWhile,
      List.dropWhile, positionToPixels]

/-- C2 (amended).  Anchor symmetry after pixel resolution: right − left is
the normalized width and bottom − top the normalized height, for every
anchor, every container size, every rectangle size input, and every square
size input that is a single token (a square with a multi-token size keeps
this only for the Middle anchor, since its corner anchors interpolate the
raw size text — see the counterexample). -/
theorem anchor_symmetry_amended (p : Position) (cw ch : ℚ) (b : Bounds)
    (w h xv yv : ParsedValue)
    (hshape : p.shape ≠ .SHAPE_CIRCLE)
    (hsq : p.shape = .SHAPE_SQUARE →
      p.size.data.contains ' ' = false ∨ p.anchor = .ANCHOR_MIDDLE)
    (hb : getHoleBoundaries p = .ok b)
    (hwh : normalizedWH p = .ok (w, h))
    (hx : parseValue p.x = .ok xv)
    (hy : parseValue p.y = .ok yv) :
    resolvedDiff b.left b.right cw = .ok (positionToPixels w.value w.unit cw) ∧
    resolvedDiff b.top b.bottom ch = .ok (positionToPixels h.value h.unit ch) := by
  obtain ⟨x, y, size, anchor, shape⟩ := p
  obtain ⟨wv, wu⟩ := w
  obtain ⟨hv, hu⟩ := h
  dsimp only at hshape hsq hb hwh hx hy
  cases shape with
  | SHAPE_CIRCLE => exact absurd rfl hshape
  | SHAPE_RECTANGLE =>
    cases hd : parseRectangleDimensions (getShapeSize size .SHAPE_RECTANGLE) with
    | error e =>
      simp only [getHoleBoundaries, hd] at hb
      exact absurd hb (by simp)
    | ok dims =>
      obtain ⟨dw, dh⟩ := dims
      simp only [normalizedWH, hd, Except.ok.injEq, Prod.mk.injEq] at hwh
      obtain ⟨hw, hh⟩ := hwh
      subst hw
      subst hh
      cases anchor <;>
        (simp only [getHoleBoundaries, hd, Except.ok.injEq] at hb
         subst hb
         constructor <;>
           (simp only [resolvedDiff, resolveExpr, resolveDelta, hx, hy, Except.ok.injEq]
            first
            | ring1
            | (rw [← positionToPixels_half_add wv wu cw]; ring1)
            | (rw [← positionToPixels_half_add hv hu ch]; ring1)))
  | SHAPE_SQUARE =>
    cases he : parseValue (getShapeSize size .SHAPE_SQUARE) with
    | error e =>
      simp only [getHoleBoundaries, he] at hb
      exact absurd hb (by simp)
    | ok e =>
      simp only [normalizedWH, he, Except.ok.injEq, Prod.mk.injEq] at hwh
      obtain ⟨hw, hh⟩ := hwh
      subst hw
      injection hh with hwv hwu
      subst hwv
      subst hwu
      rcases hsq rfl with hns | hmid
      · have hsz : parseValue size = .ok ⟨wv, wu⟩ := by
          rw [← getShapeSize_single_no_space .SHAPE_SQUARE (by intro hc; cases hc) hns]
          exact he
        cases anchor <;>
          (simp only [getHoleBoundaries, he, Except.ok.injEq] at hb
           subst hb
           constructor <;>
             (simp only [resolvedDiff, resolveExpr, resolveDelta, hx, hy, hsz, Except.ok.injEq]
              first
              | ring1
              | (rw [← positionToPixels_half_add wv wu cw]; ring1)
              | (rw [← positionToPixels_half_add wv wu ch]; ring1)))
      · subst hmid
        simp only [getHoleBoundaries, he, Except.ok.injEq] at hb
        subst hb
        constructor <;>
          (simp only [resolvedDiff, resolveExpr, resolveDelta, hx, hy, Except.ok.injEq]
           first
           | (rw [← positionToPixels_half_add wv wu cw]; ring1)
           | (rw [← positionToPixels_half_add wv wu ch]; ring1))

/-- Witness for C2 (amended) at spec scenario 1: a 200px × 100px rectangle
anchored Middle at (50%, 50%) in a 1000 × 800 container. -/
theorem anchor_symmetry_amended_witness :
    resolvedDiff (.sub ("50%") (.len 100 .px)) (.add ("50%") (.len 100 .px)) 1000 =
      .ok (positionToPixels 200 .px 1000) ∧
    resolvedDiff (.sub ("50%") (.len 50 .px)) (.add ("50%") (.len 50 .px)) 800 =
      .ok (positionToPixels 100 .px 800) := by
  have hb : getHoleBoundaries
      ⟨("50%"), ("50%"), ("200px 100px"), .ANCHOR_MIDDLE, .SHAPE_RECTANGLE⟩ =
      .ok ⟨.sub ("50%") (.len 100 .px), .sub ("50%") (.len 50 .px),
        .add ("50%") (.len 100 .px), .add ("50%") (.len 50 .px)⟩ := by
    simp +decide [getHoleBoundaries, parseRectangleDimensions, getShapeSize, splitOnSpace,
      splitOnSpaceAux, matchLength, List.takeWhile, List.dropWhile, digitsToNat]
    norm_num
  exact anchor_symmetry_amended
    ⟨("50%"), ("50%"), ("200px 100px"), .ANCHOR_MIDDLE, .SHAPE_RECTANGLE⟩ 1000 800
    ⟨.sub ("50%") (.len 100 .px), .sub ("50%") (.len 50 .px),
      .add ("50%") (.len 100 .px), .add ("50%") (.len 50 .px)⟩
    ⟨200, .px⟩ ⟨100, .px⟩ ⟨50, .percent⟩ ⟨50, .percent⟩
    (by decide) (by decide) hb
    (by simp +decide [normalizedWH, parseRectangleDimensions, getShapeSize, splitOnSpace,
      splitOnSpaceAux, matchLength, List.takeWhile, List.dropWhile, digitsToNat])
    (by simp +decide [parseValue, matchLength, List.takeWhile, List.dropWhile, digitsToNat])
    (by simp +decide [parseValue, matchLength, List.takeWhile, List.dropWhile, digitsToNat])

/-- C8.  Middle-anchor centering: for every shape, resolving the Middle-anchor
boundary to pixels places the reference point exactly at the box center on
both axes. -/
theorem middle_anchor_centering (p : Position) (cw ch : ℚ) (b : Bounds) (xv yv : ParsedValue)
    (ha : p.anchor = .ANCHOR_MIDDLE)
    (hb : getHoleBoundaries p = .ok b)
    (hx : parseValue p.x = .ok xv)
    (hy : parseValue p.y = .ok yv) :
    resolvedMid b.left b.right cw = .ok (positionToPixels xv.value xv.unit cw) ∧
    resolvedMid b.top b.bottom ch = .ok (positionToPixels yv.value yv.unit ch) := by
  obtain ⟨x, y, size, anchor, shape⟩ := p
  dsimp only at ha hb hx hy
  subst ha
  cases shape with
  | SHAPE_RECTANGLE =>
    cases hd : parseRectangleDimensions (getShapeSize size .SHAPE_RECTANGLE) with
    | error e =>
      simp only [getHoleBoundaries, hd] at hb
      exact absurd hb (by simp)
    | ok dims =>
      simp only [getHoleBoundaries, hd, Except.ok.injEq] at hb
      subst hb
      constructor <;>
        (simp only [resolvedMid, resolveExpr, resolveDelta, hx, hy, Except.ok.injEq]
         ring1)
  | SHAPE_SQUARE =>
    cases he : parseValue (getShapeSize size .SHAPE_SQUARE) with
    | error e =>
      simp only [getHoleBoundaries, he] at hb
      exact absurd hb (by simp)
    | ok e =>
      simp only [getHoleBoundaries, he, Except.ok.injEq] at hb
      subst hb
      constructor <;>
        (simp only [resolvedMid, resolveExpr, resolveDelta, hx, hy, Except.ok.injEq]
         ring1)
  | SHAPE_CIRCLE =>
    cases he : parseValue (getShapeSize size .SHAPE_CIRCLE) with
    | error e =>
      simp only [getHoleBoundaries, he] at hb
      exact absurd hb (by simp)
    | ok e =>
      simp only [getHoleBoundaries, he, Except.ok.injEq] at hb
      subst hb
      constructor <;>
        (simp only [resolvedMid, resolveExpr, resolveDelta, hx, hy, Except.ok.injEq]
         ring1)

/-- Witness for C8: spec scenario 1 (rectangle, Middle anchor, (50%, 50%)
reference, 1000 × 800 container) has its reference at the resolved center. -/
theorem middle_anchor_centering_witness :
    resolvedMid (.sub ("50%") (.len 100 .px)) (.add ("50%") (.len 100 .px)) 1000 =
      .ok (positionToPixels 50 .percent 1000) ∧
    resolvedMid (.sub ("50%") (.len 50 .px)) (.add ("50%") (.len 50 .px)) 800 =
      .ok (positionToPixels 50 .percent 800) := by
  have hb : getHoleBoundaries
      ⟨("50%"), ("50%"), ("200px 100px"), .ANCHOR_MIDDLE, .SHAPE_RECTANGLE⟩ =
      .ok ⟨.sub ("50%") (.len 100 .px), .sub ("50%") (.len 50 .px),
        .add ("50%") (.len 100 .px), .add ("50%") (.len 50 .px)⟩ := by
    simp +decide [getHoleBoundaries, parseRectangleDimensions, getShapeSize, splitOnSpace,
      splitOnSpaceAux, matchLength, List.takeWhile, List.dropWhile, digitsToNat]
    norm_num
  exact middle_anchor_centering
    ⟨("50%"), ("50%"), ("200px 100px"), .ANCHOR_MIDDLE, .SHAPE_RECTANGLE⟩ 1000 800
    ⟨.sub ("50%") (.len 100 .px), .sub ("50%") (.len 50 .px),
      .add ("50%") (.len 100 .px), .add ("50%") (.len 50 .px)⟩
    ⟨50, .percent⟩ ⟨50, .percent⟩ rfl hb
    (by simp +decide [parseValue, matchLength, List.takeWhile, List.dropWhile, digitsToNat])
    (by simp +decide [parseValue, matchLength, List.takeWhile, List.dropWhile, digitsToNat])

/-- C6.  Circle boundary: the radius is half the normalized extent with the
extent's unit preserved, and the resolved center is the reference point
shifted inward by one radius per axis for corner anchors (+x for left, −x for
right, +y for top, −y for bottom), while Middle leaves the center at the
reference point. -/
theorem circle_center_per_anchor (p : Position) (cw ch : ℚ) (e xv yv : ParsedValue)
    (he : parseValue (getShapeSize p.size .SHAPE_CIRCLE) = .ok e)
    (hx : parseValue p.x = .ok xv)
    (hy : parseValue p.y = .ok yv) :
    ∃ cx cy, circleBoundary p = .ok (e.value / 2, e.unit, cx, cy) ∧
      (cx, cy) = calculateCircleCenter p.x p.y (e.value / 2) e.unit p.anchor ∧
      (p.anchor = .ANCHOR_TOP_LEFT →
        resolveExpr cx cw =
          .ok (positionToPixels xv.value xv.unit cw + positionToPixels (e.value / 2) e.unit cw) ∧
        resolveExpr cy ch =
          .ok (positionToPixels yv.value yv.unit ch + positionToPixels (e.value / 2) e.unit ch)) ∧
      (p.anchor = .ANCHOR_TOP_RIGHT →
        resolveExpr cx cw =
          .ok (positionToPixels xv.value xv.unit cw - positionToPixels (e.value / 2) e.unit cw) ∧
        resolveExpr cy ch =
          .ok (positionToPixels yv.value yv.unit ch + positionToPixels (e.value / 2) e.unit ch)) ∧
      (p.anchor = .ANCHOR_BOTTOM_LEFT →
        resolveExpr cx cw =
          .ok (positionToPixels xv.value xv.unit cw + positionToPixels (e.value / 2) e.unit cw) ∧
        resolveExpr cy ch =
          .ok (positionToPixels yv.value yv.unit ch - positionToPixels (e.value / 2) e.unit ch)) ∧
      (p.anchor = .ANCHOR_BOTTOM_RIGHT →
        resolveExpr cx cw =
          .ok (positionToPixels xv.value xv.unit cw - positionToPixels (e.value / 2) e.unit cw) ∧
        resolveExpr cy ch =
          .ok (positionToPixels yv.value yv.unit ch - positionToPixels (e.value / 2) e.unit ch)) ∧
      (p.anchor = .ANCHOR_MIDDLE →
        resolveExpr cx cw = .ok (positionToPixels xv.value xv.unit cw) ∧
        resolveExpr cy ch = .ok (positionToPixels yv.value yv.unit ch)) := by
  obtain ⟨x, y, size, anchor, shape⟩ := p
  dsimp only at he hx hy
  cases anchor with
  | ANCHOR_TOP_LEFT =>
    refine ⟨.add x (.len (e.value / 2) e.unit), .add y (.len (e.value / 2) e.unit),
      by simp only [circleBoundary, he, calculateCircleCenter], by rfl, ?_, ?_, ?_, ?_, ?_⟩
    · intro _
      exact ⟨by simp only [resolveExpr, resolveDelta, hx], by simp only [resolveExpr, resolveDelta, hy]⟩
    · intro habs
      exact Anchor.noConfusion habs
    · intro habs
      exact Anchor.noConfusion habs
    · intro habs
      exact Anchor.noConfusion habs
    · intro habs
      exact Anchor.noConfusion habs
  | ANCHOR_TOP_RIGHT =>
    refine ⟨.sub x (.len (e.value / 2) e.unit), .add y (.len (e.value / 2) e.unit),
      by simp only [circleBoundary, he, calculateCircleCenter], by rfl, ?_, ?_, ?_, ?_, ?_⟩
    · intro habs
      exact Anchor.noConfusion habs
    · intro _
      exact ⟨by simp only [resolveExpr, resolveDelta, hx], by simp only [resolveExpr, resolveDelta, hy]⟩
    · intro habs
      exact Anchor.noConfusion habs
    · intro habs
      exact Anchor.noConfusion habs
    · intro habs
      exact Anchor.noConfusion habs
  | ANCHOR_BOTTOM_LEFT =>
    refine ⟨.add x (.len (e.value / 2) e.unit), .sub y (.len (e.value / 2) e.unit),
      by simp only [circleBoundary, he, calculateCircleCenter], by rfl, ?_, ?_, ?_, ?_, ?_⟩
    · intro habs
      exact Anchor.noConfusion habs
    · intro habs
      exact Anchor.noConfusion habs
    · intro _
      exact ⟨by simp only [resolveExpr, resolveDelta, hx], by simp only [resolveExpr, resolveDelta, hy]⟩
    · intro habs
      exact Anchor.noConfusion habs
    · intro habs
      exact Anchor.noConfusion habs
  | ANCHOR_BOTTOM_RIGHT =>
    refine ⟨.sub x (.len (e.value / 2) e.unit), .sub y (.len (e.value / 2) e.unit),
      by simp only [circleBoundary, he, calculateCircleCenter], by rfl, ?_, ?_, ?_, ?_, ?_⟩
    · intro habs
      exact Anchor.noConfusion habs
    · intro habs
      exact Anchor.noConfusion habs
    · intro habs
      exact Anchor.noConfusion habs
    · intro _
      exact ⟨by simp only [resolveExpr, resolveDelta, hx], by simp only [resolveExpr, resolveDelta, hy]⟩
    · intro habs
      exact Anchor.noConfusion habs
  | ANCHOR_MIDDLE =>
    refine ⟨.lit x, .lit y,
      by simp only [circleBoundary, he, calculateCircleCenter], by rfl, ?_, ?_, ?_, ?_, ?_⟩
    · intro habs
      exact Anchor.noConfusion habs
    · intro habs
      exact Anchor.noConfusion habs
    · intro habs
      exact Anchor.noConfusion habs
    · intro habs
      exact Anchor.noConfusion habs
    · intro _
      exact ⟨by simp only [resolveExpr, hx], by simp only [resolveExpr, hy]⟩

/-- Witness for C6 at the TopLeft circle descriptor of spec scenario 3
(extent 100px at reference (0px, 0px), container 100 × 100). -/
theorem circle_center_per_anchor_witness :
    ∃ cx cy,
      circleBoundary ⟨("0px"), ("0px"), ("100px"), .ANCHOR_TOP_LEFT, .SHAPE_CIRCLE⟩ =
        .ok ((100 : ℚ) / 2, Unit.px, cx, cy) ∧
      (cx, cy) = calculateCircleCenter ("0px") ("0px") ((100 : ℚ) / 2) .px .ANCHOR_TOP_LEFT ∧
      (Anchor.ANCHOR_TOP_LEFT = .ANCHOR_TOP_LEFT →
        resolveExpr cx 100 =
          .ok (positionToPixels 0 .px 100 + positionToPixels ((100 : ℚ) / 2) .px 100) ∧
        resolveExpr cy 100 =
          .ok (positionToPixels 0 .px 100 + positionToPixels ((100 : ℚ) / 2) .px 100)) ∧
      (Anchor.ANCHOR_TOP_LEFT = .ANCHOR_TOP_RIGHT →
        resolveExpr cx 100 =
          .ok (positionToPixels 0 .px 100 - positionToPixels ((100 : ℚ) / 2) .px 100) ∧
        resolveExpr cy 100 =
          .ok (positionToPixels 0 .px 100 + positionToPixels ((100 : ℚ) / 2) .px 100)) ∧
      (Anchor.ANCHOR_TOP_LEFT = .ANCHOR_BOTTOM_LEFT →
        resolveExpr cx 100 =
          .ok (positionToPixels 0 .px 100 + positionToPixels ((100 : ℚ) / 2) .px 100) ∧
        resolveExpr cy 100 =
          .ok (positionToPixels 0 .px 100 - positionToPixels ((100 : ℚ) / 2) .px 100)) ∧
      (Anchor.ANCHOR_TOP_LEFT = .ANCHOR_BOTTOM_RIGHT →
        resolveExpr cx 100 =
          .ok (positionToPixels 0 .px 100 - positionToPixels ((100 : ℚ) / 2) .px 100) ∧
        resolveExpr cy 100 =
          .ok (positionToPixels 0 .px 100 - positionToPixels ((100 : ℚ) / 2) .px 100)) ∧
      (Anchor.ANCHOR_TOP_LEFT = .ANCHOR_MIDDLE →
        resolveExpr cx 100 = .ok (positionToPixels 0 .px 100) ∧
        resolveExpr cy 100 = .ok (positionToPixels 0 .px 100)) :=
  circle_center_per_anchor ⟨("0px"), ("0px"), ("100px"), .ANCHOR_TOP_LEFT, .SHAPE_CIRCLE⟩
    100 100 ⟨100, .px⟩ ⟨0, .px⟩ ⟨0, .px⟩
    (by simp +decide [parseValue, getShapeSize, matchLength, List.takeWhile, List.dropWhile,
      digitsToNat])
    (by simp +decide [parseValue, matchLength, List.takeWhile, List.dropWhile, digitsToNat])
    (by simp +decide [parseValue, matchLength, List.takeWhile, List.dropWhile, digitsToNat])

/-- C10.  Hit-test pixel resolution axes: on the anchors for which the
hit-test completes, the center's x is resolved against the container width,
the center's y against the container height, and the radius against
min(width, height); for a percentage radius p the resolved radius is
min(width, height) * p / 100. -/
theorem radius_min_axis (p : Position) (cw ch : ℚ) (e xv yv : ParsedValue)
    (ha : p.anchor = .ANCHOR_MIDDLE)
    (he : parseValue (getShapeSize p.size .SHAPE_CIRCLE) = .ok e)
    (hx : parseValue p.x = .ok xv)
    (hy : parseValue p.y = .ok yv) :
    circleHitGeometry p cw ch =
      .ok (positionToPixels xv.value xv.unit cw,
           positionToPixels yv.value yv.unit ch,
           positionToPixels (e.value / 2) e.unit (min cw ch)) ∧
    (e.unit = .percent →
      positionToPixels (e.value / 2) e.unit (min cw ch) = min cw ch * (e.value / 2) / 100) := by
  obtain ⟨x, y, size, anchor, shape⟩ := p
  dsimp only at ha he hx hy
  subst ha
  constructor
  · simp only [circleHitGeometry, he, calculateCircleCenter, parseValueExpr, hx, hy]
  · intro hu
    rw [hu]
    rfl

/-- Witness for C10: a circle with a 10% extent anchored Middle at (25%, 50%)
in a 200 × 100 container resolves to center (50, 50) and radius 5 =
min(200, 100) * 5 / 100. -/
theorem radius_min_axis_witness :
    circleHitGeometry ⟨("25%"), ("50%"), ("10%"), .ANCHOR_MIDDLE, .SHAPE_CIRCLE⟩ 200 100 =
      .ok (positionToPixels 25 .percent 200,
           positionToPixels 50 .percent 100,
           positionToPixels ((10 : ℚ) / 2) .percent (min 200 100)) ∧
    (Unit.percent = .percent →
      positionToPixels ((10 : ℚ) / 2) .percent (min (200 : ℚ) 100) =
        min (200 : ℚ) 100 * ((10 : ℚ) / 2) / 100) :=
  radius_min_axis ⟨("25%"), ("50%"), ("10%"), .ANCHOR_MIDDLE, .SHAPE_CIRCLE⟩ 200 100
    ⟨10, .percent⟩ ⟨25, .percent⟩ ⟨50, .percent⟩ rfl
    (by simp +decide [parseValue, getShapeSize, matchLength, List.takeWhile, List.dropWhile,
      digitsToNat])
    (by simp +decide [parseValue, matchLength, List.takeWhile, List.dropWhile, digitsToNat])
    (by simp +decide [parseValue, matchLength, List.takeWhile, List.dropWhile, digitsToNat])

/-- C1.  End-to-end circle hit-test for the descriptor {x:"0px", y:"0px",
size:"100px", anchor:TopLeft, shape:Circle}: the code's hit path throws
`MalformedLength` (it feeds the center string "calc(0px + 50px)" back into
the bare-length parser), although its own boundary computation places the
center at reference + 50px per axis, which the spec's pixel resolver takes
to (50, 50) with radius 50 — where a click at (50, 50) is inside and a click
at (0, 0) is outside. -/
theorem circle_topLeft_hit_crash :
    circleHitGeometry ⟨("0px"), ("0px"), ("100px"), .ANCHOR_TOP_LEFT, .SHAPE_CIRCLE⟩ 100 100 =
      .error .MalformedLength ∧
    circleBoundary ⟨("0px"), ("0px"), ("100px"), .ANCHOR_TOP_LEFT, .SHAPE_CIRCLE⟩ =
      .ok (50, .px, .add ("0px") (.len 50 .px), .add ("0px") (.len 50 .px)) ∧
    resolveExpr (.add ("0px") (.len 50 .px)) 100 = .ok 50 ∧
    positionToPixels 50 .px (min (100 : ℚ) 100) = 50 ∧
    isClickInsideCircle 50 50 50 50 50 ∧
    ¬ isClickInsideCircle 0 0 50 50 50 := by
  refine ⟨?_, ?_, ?_, ?_, ?_, ?_⟩
  · simp +decide [circleHitGeometry, parseValue, getShapeSize, matchLength, List.takeWhile,
      List.dropWhile, digitsToNat, calculateCircleCenter, parseValueExpr]
  · simp +decide [circleBoundary, parseValue, getShapeSize, matchLength, List.takeWhile,
      List.dropWhile, digitsToNat, calculateCircleCenter]
    norm_num
  · simp +decide [resolveExpr, resolveDelta, parseValue, matchLength, List.takeWhile,
      List.dropWhile, digitsToNat, positionToPixels]
  · rfl
  · show Real.sqrt (((50 : ℝ) - 50) ^ 2 + ((50 : ℝ) - 50) ^ 2) ≤ 50
    rw [show ((50 : ℝ) - 50) ^ 2 + ((50 : ℝ) - 50) ^ 2 = 0 by norm_num, Real.sqrt_zero]
    norm_num
  · show ¬ Real.sqrt (((0 : ℝ) - 50) ^ 2 + ((0 : ℝ) - 50) ^ 2) ≤ 50
    rw [show ((0 : ℝ) - 50) ^ 2 + ((0 : ℝ) - 50) ^ 2 = 5000 by norm_num, not_le]
    exact (Real.lt_sqrt (by norm_num)).mpr (by norm_num)

/-- C7.  Hit-test boundary inclusion: `isClickInsideCircle` holds exactly
when the Euclidean distance from click to center is at most the radius
(equivalently, when the squared distance is at most the squared radius, for
a nonnegative radius); a click at distance exactly r is inside and a click
at distance r + ε (ε > 0) is outside. -/
theorem hit_test_boundary_inclusive (x y cx cy r eps : ℝ) (hr : 0 ≤ r) (heps : 0 < eps) :
    (isClickInsideCircle x y cx cy r ↔ Real.sqrt ((x - cx) ^ 2 + (y - cy) ^ 2) ≤ r) ∧
    (isClickInsideCircle x y cx cy r ↔ (x - cx) ^ 2 + (y - cy) ^ 2 ≤ r ^ 2) ∧
    (Real.sqrt ((x - cx) ^ 2 + (y - cy) ^ 2) = r → isClickInsideCircle x y cx cy r) ∧
    (Real.sqrt ((x - cx) ^ 2 + (y - cy) ^ 2) = r + eps →
      ¬ isClickInsideCircle x y cx cy r) := by
  have h1 : isClickInsideCircle x y cx cy r ↔
      Real.sqrt ((x - cx) ^ 2 + (y - cy) ^ 2) ≤ r := Iff.rfl
  have h2 : isClickInsideCircle x y cx cy r ↔ (x - cx) ^ 2 + (y - cy) ^ 2 ≤ r ^ 2 := by
    show Real.sqrt ((x - cx) ^ 2 + (y - cy) ^ 2) ≤ r ↔ (x - cx) ^ 2 + (y - cy) ^ 2 ≤ r ^ 2
    rw [Real.sqrt_le_iff]
    exact ⟨fun h => h.2, fun h => ⟨hr, h⟩⟩
  refine ⟨h1, h2, ?_, ?_⟩
  · intro h
    exact h1.mpr (le_of_eq h)
  · intro h hin
    have hle := h1.mp hin
    rw [h] at hle
    linarith

/-- Witness for C7: a click at (3, 4) is at distance exactly 5 from the
origin and is classified inside a radius-5 circle. -/
theorem hit_test_boundary_inclusive_witness :
    (0 : ℝ) ≤ 5 ∧ (0 : ℝ) < 1 ∧ isClickInsideCircle 3 4 0 0 5 :=
  ⟨by norm_num, by norm_num,
    (hit_test_boundary_inclusive 3 4 0 0 5 1 (by norm_num) (by norm_num)).2.2.1 (by
      show Real.sqrt (((3 : ℝ) - 0) ^ 2 + ((4 : ℝ) - 0) ^ 2) = 5
      rw [show ((3 : ℝ) - 0) ^ 2 + ((4 : ℝ) - 0) ^ 2 = 5 ^ 2 by norm_num,
        Real.sqrt_sq (by norm_num)])⟩

/-- C9.  Determinism: every embedded core operation is a pure function of its
explicit inputs, so two runs on equal inputs (same descriptor, container
dimensions and click/center/radius values) give equal results; no run
mutates state observable by another. -/
theorem core_deterministic (p p2 : Position) (cw ch cw2 ch2 : ℚ)
    (a b c d r a2 b2 c2 d2 r2 : ℝ)
    (hp : p = p2) (hcw : cw = cw2) (hch : ch = ch2)
    (h1 : a = a2) (h2 : b = b2) (h3 : c = c2) (h4 : d = d2) (h5 : r = r2) :
    getHoleBoundaries p = getHoleBoundaries p2 ∧
    circleHitGeometry p cw ch = circleHitGeometry p2 cw2 ch2 ∧
    (isClickInsideCircle a b c d r ↔ isClickInsideCircle a2 b2 c2 d2 r2) := by
  subst hp
  subst hcw
  subst hch
  subst h1
  subst h2
  subst h3
  subst h4
  subst h5
  exact ⟨rfl, rfl, Iff.rfl⟩

/-- Witness for C9 at a concrete descriptor, container and click. -/
theorem core_deterministic_witness :
    getHoleBoundaries ⟨("0px"), ("0px"), ("100px"), .ANCHOR_MIDDLE, .SHAPE_CIRCLE⟩ =
      getHoleBoundaries ⟨("0px"), ("0px"), ("100px"), .ANCHOR_MIDDLE, .SHAPE_CIRCLE⟩ ∧
    circleHitGeometry ⟨("0px"), ("0px"), ("100px"), .ANCHOR_MIDDLE, .SHAPE_CIRCLE⟩ 100 100 =
      circleHitGeometry ⟨("0px"), ("0px"), ("100px"), .ANCHOR_MIDDLE, .SHAPE_CIRCLE⟩ 100 100 ∧
    (isClickInsideCircle 1 2 3 4 5 ↔ isClickInsideCircle 1 2 3 4 5) :=
  core_deterministic ⟨("0px"), ("0px"), ("100px"), .ANCHOR_MIDDLE, .SHAPE_CIRCLE⟩
    ⟨("0px"), ("0px"), ("100px"), .ANCHOR_MIDDLE, .SHAPE_CIRCLE⟩
    100 100 100 100 1 2 3 4 5 1 2 3 4 5 rfl rfl rfl rfl rfl rfl rfl rfl

end MaskLayer
